import Mathlib

/-!
# Verification of the tds-sniffer SQL extraction pipeline

A shallow embedding, in Lean 4, of the Rust sources of the `tds-sniffer`
repository (packet dissection in `src/extractor.rs`, TCP reassembly in
`src/tcp.rs`, TDS framing and body decoding in `src/tds.rs`, event
deduplication in `src/gui.rs`), together with theorems settling the
specification claims about those functions.

Conventions of the embedding:
* Rust byte slices `&[u8]` become `List Nat`; each element models one byte
  (program-produced bytes are < 256, which the embedding does not need to
  assume unless stated).
* Machine integers are `Nat` with explicit reduction `% 2^32` where u32
  wrap-around matters (`expected_seq` arithmetic in reassembly, `as u32`
  casts). Big/little endian reads are spelled out.
* Fallible Rust code returning `Option`/early `return None` becomes `Option`.
  Rust code whose only failure mode is a panic (out-of-bounds indexing) is
  embedded in `Except String` so that panic-freedom is a provable statement.
* Rust `String` becomes Lean `String`; the helpers below reproduce the
  Unicode behaviour the sources rely on (`str::trim`, `char::is_control`,
  `char::is_whitespace`, UTF-8 byte length, `encoding_rs` UTF-16LE decoding
  with BOM sniffing and U+FFFD replacement).
-/

namespace TdsSniffer

/-! ## Byte-level helpers -/

/-- Big-endian u16 from two bytes (`u16::from_be_bytes([a, b])`). -/
def be16 (a b : Nat) : Nat := a * 256 + b

/-- Little-endian u16 from two bytes (`u16::from_le_bytes([a, b])`). -/
def le16 (a b : Nat) : Nat := b * 256 + a

/-- Little-endian u32 read of `data[i..i+4]`
(`u32::from_le_bytes([data[i], data[i+1], data[i+2], data[i+3]])`).
Out-of-range bytes default to 0; every use in this development is guarded by
a length check exactly as in the source. -/
def le32 (data : List Nat) (i : Nat) : Nat :=
  data.getD i 0 + data.getD (i+1) 0 * 256 +
    data.getD (i+2) 0 * 65536 + data.getD (i+3) 0 * 16777216

/-- Little-endian u32 read packed from four explicit bytes. -/
def le32Of (a b c d : Nat) : Nat := a + b * 256 + c * 65536 + d * 16777216

/-- Big-endian u32 from four bytes (`u32::from_be_bytes`). -/
def be32Of (a b c d : Nat) : Nat := a * 16777216 + b * 65536 + c * 256 + d

/-- The sub-slice `data[i..i+n]` (all uses are bounds-checked in the source
before slicing). -/
def sliceAt (data : List Nat) (i n : Nat) : List Nat := (data.drop i).take n

/-- Little-endian i32 from four bytes (`i32::from_le_bytes`), as an `Int`. -/
def i32FromLeBytes (a b c d : Nat) : Int :=
  let u := le32Of a b c d
  if u < 2147483648 then (u : Int) else (u : Int) - 4294967296

/-! ## Unicode helpers

These model the exact `std` / `encoding_rs` primitives the Rust sources
call on strings.  -/

/-- Rust `char::is_whitespace`: the Unicode White_Space property
(UAX #44, PropList.txt); the full (finite) code-point list. -/
def rustIsWhitespace (c : Char) : Bool :=
  let n := c.toNat
  (9 ≤ n ∧ n ≤ 13) || n = 32 || n = 133 || n = 160 || n = 5760 ||
    (8192 ≤ n ∧ n ≤ 8202) || n = 8232 || n = 8233 || n = 8239 ||
    n = 8287 || n = 12288

/-- Rust `char::is_control`: the Cc general category,
U+0000..U+001F and U+007F..U+009F. -/
def rustIsControl (c : Char) : Bool :=
  c.toNat < 32 || (127 ≤ c.toNat ∧ c.toNat ≤ 159)

/-- Rust `str::trim` on a list of chars: remove leading and trailing
White_Space characters. -/
def trimChars (cs : List Char) : List Char :=
  ((cs.dropWhile rustIsWhitespace).reverse.dropWhile rustIsWhitespace).reverse

/-- Rust `str::trim`. -/
def rustTrim (s : String) : String := ⟨trimChars s.data⟩

/-- Rust `str::len`: the UTF-8 byte length of a string. -/
def utf8Len (s : String) : Nat := (s.data.map Char.utf8Size).sum

/-- The U+FFFD replacement character emitted by `encoding_rs` for
malformed input. -/
def replacementChar : Char := Char.ofNat 0xFFFD

/-- Pair up bytes into little-endian UTF-16 code units; a trailing lone
byte (impossible at the even-length call sites) maps to the code unit
0xFFFD, matching the replacement `encoding_rs` emits for it. -/
def utf16UnitsLE : List Nat → List Nat
  | [] => []
  | [_] => [0xFFFD]
  | a :: b :: rest => le16 a b :: utf16UnitsLE rest

/-- Pair up bytes into big-endian UTF-16 code units (used only after a
UTF-16BE byte-order mark). -/
def utf16UnitsBE : List Nat → List Nat
  | [] => []
  | [_] => [0xFFFD]
  | a :: b :: rest => be16 a b :: utf16UnitsBE rest

/-- WHATWG UTF-16 decoding of a code-unit sequence: surrogate pairs
combine, unpaired surrogates become U+FFFD (the behaviour of
`encoding_rs::UTF_16LE.decode`). -/
def utf16ToChars : List Nat → List Char
  | [] => []
  | [u] =>
    if u < 0xD800 ∨ 0xE000 ≤ u then [Char.ofNat u] else [replacementChar]
  | u :: v :: rest =>
    if u < 0xD800 ∨ 0xE000 ≤ u then Char.ofNat u :: utf16ToChars (v :: rest)
    else if u < 0xDC00 then
      if 0xDC00 ≤ v ∧ v < 0xE000 then
        Char.ofNat (0x10000 + (u - 0xD800) * 0x400 + (v - 0xDC00)) ::
          utf16ToChars rest
      else replacementChar :: utf16ToChars (v :: rest)
    else replacementChar :: utf16ToChars (v :: rest)

/-- WHATWG UTF-8 decoding with U+FFFD replacement (the decoder
`encoding_rs` uses when BOM sniffing selects UTF-8; unreachable from every
theorem below, included for a faithful `Encoding::decode`). -/
def utf8DecodeChars : List Nat → List Char
  | [] => []
  | b :: rest =>
    if b < 0x80 then Char.ofNat b :: utf8DecodeChars rest
    else if b < 0xC2 then replacementChar :: utf8DecodeChars rest
    else if b ≤ 0xDF then
      match rest with
      | [] => [replacementChar]
      | c :: r =>
        if 0x80 ≤ c ∧ c ≤ 0xBF then
          Char.ofNat ((b - 0xC0) * 64 + (c - 0x80)) :: utf8DecodeChars r
        else replacementChar :: utf8DecodeChars (c :: r)
    else if b ≤ 0xEF then
      let lo := if b = 0xE0 then 0xA0 else 0x80
      let hi := if b = 0xED then 0x9F else 0xBF
      match rest with
      | [] => [replacementChar]
      | c :: r =>
        if lo ≤ c ∧ c ≤ hi then
          match r with
          | [] => [replacementChar]
          | d :: r2 =>
            if 0x80 ≤ d ∧ d ≤ 0xBF then
              Char.ofNat ((b - 0xE0) * 4096 + (c - 0x80) * 64 + (d - 0x80)) ::
                utf8DecodeChars r2
            else replacementChar :: utf8DecodeChars (d :: r2)
        else replacementChar :: utf8DecodeChars (c :: r)
    else if b ≤ 0xF4 then
      let lo := if b = 0xF0 then 0x90 else 0x80
      let hi := if b = 0xF4 then 0x8F else 0xBF
      match rest with
      | [] => [replacementChar]
      | c :: r =>
        if lo ≤ c ∧ c ≤ hi then
          match r with
          | [] => [replacementChar]
          | d :: r2 =>
            if 0x80 ≤ d ∧ d ≤ 0xBF then
              match r2 with
              | [] => [replacementChar]
              | e :: r3 =>
                if 0x80 ≤ e ∧ e ≤ 0xBF then
                  Char.ofNat ((b - 0xF0) * 262144 + (c - 0x80) * 4096 +
                      (d - 0x80) * 64 + (e - 0x80)) :: utf8DecodeChars r3
                else replacementChar :: utf8DecodeChars (e :: r3)
            else replacementChar :: utf8DecodeChars (d :: r2)
        else replacementChar :: utf8DecodeChars (c :: r)
    else replacementChar :: utf8DecodeChars rest
termination_by bs => bs.length
decreasing_by all_goals simp_arith [List.length]

/-- `encoding_rs::UTF_16LE.decode(bytes).0`: BOM sniffing (UTF-8 /
UTF-16LE / UTF-16BE byte-order marks override the nominal encoding, and
the BOM is removed), then WHATWG decoding with replacement. -/
def utf16LeDecode (bytes : List Nat) : String :=
  if bytes.take 2 = [0xFF, 0xFE] then ⟨utf16ToChars (utf16UnitsLE (bytes.drop 2))⟩
  else if bytes.take 2 = [0xFE, 0xFF] then ⟨utf16ToChars (utf16UnitsBE (bytes.drop 2))⟩
  else if bytes.take 3 = [0xEF, 0xBB, 0xBF] then ⟨utf8DecodeChars (bytes.drop 3)⟩
  else ⟨utf16ToChars (utf16UnitsLE bytes)⟩

/-- Strict UTF-8 validation/decoding (`String::from_utf8`): `none` exactly
when the bytes are not valid UTF-8. -/
def utf8Strict : List Nat → Option (List Char)
  | [] => some []
  | b :: rest =>
    if b < 0x80 then (utf8Strict rest).map (Char.ofNat b :: ·)
    else if b < 0xC2 then none
    else if b ≤ 0xDF then
      match rest with
      | c :: r =>
        if 0x80 ≤ c ∧ c ≤ 0xBF then
          (utf8Strict r).map (Char.ofNat ((b - 0xC0) * 64 + (c - 0x80)) :: ·)
        else none
      | [] => none
    else if b ≤ 0xEF then
      let lo := if b = 0xE0 then 0xA0 else 0x80
      let hi := if b = 0xED then 0x9F else 0xBF
      match rest with
      | c :: d :: r =>
        if (lo ≤ c ∧ c ≤ hi) ∧ (0x80 ≤ d ∧ d ≤ 0xBF) then
          (utf8Strict r).map
            (Char.ofNat ((b - 0xE0) * 4096 + (c - 0x80) * 64 + (d - 0x80)) :: ·)
        else none
      | _ => none
    else if b ≤ 0xF4 then
      let lo := if b = 0xF0 then 0x90 else 0x80
      let hi := if b = 0xF4 then 0x8F else 0xBF
      match rest with
      | c :: d :: e :: r =>
        if (lo ≤ c ∧ c ≤ hi) ∧ (0x80 ≤ d ∧ d ≤ 0xBF) ∧ (0x80 ≤ e ∧ e ≤ 0xBF) then
          (utf8Strict r).map
            (Char.ofNat ((b - 0xF0) * 262144 + (c - 0x80) * 4096 +
              (d - 0x80) * 64 + (e - 0x80)) :: ·)
        else none
      | _ => none
    else none

/-- Rust `str::starts_with`, on the character lists (Lean core's
`String.startsWith` is by-byte and does not reduce in the kernel). -/
def startsWithS (s pre : String) : Bool := pre.data.isPrefixOf s.data

/-- Rust `str::is_empty` for strings. -/
def strIsEmpty (s : String) : Bool := s.data.isEmpty

/-- Rust `[String]::join(sep)`. -/
def joinSep (sep : String) : List String → String
  | [] => ""
  | [x] => x
  | x :: xs => x ++ sep ++ joinSep sep xs

/-- Rust `String::from_utf8(bytes)` as an `Option String`. -/
def stringFromUtf8 (bytes : List Nat) : Option String :=
  (utf8Strict bytes).map (⟨·⟩)

/-! ## `src/tds.rs`: TDS header, payload extraction, decoding, framing -/

/-- The TDS packet-type tag. The source wraps the external crate's
`PacketType` into its own `TdsPacketType` (SqlBatch = 1, RpcRequest = 3,
Response = 4, Unknown otherwise); the embedding collapses the wrapper and
the crate enum into one tagged sum, following the `From<PacketType>`
impl in `src/tds.rs`. -/
inductive TdsPacketType where
  | sqlBatch
  | rpcRequest
  | response
  | unknown (b : Nat)
deriving DecidableEq, Repr

/-- Classify a packet-type byte, per the `From` impl in `src/tds.rs`
(1 = SqlBatch, 3 = Rpc, 4 = TabularResult, anything else Unknown). -/
def TdsPacketType.ofByte (b : Nat) : TdsPacketType :=
  if b = 1 then .sqlBatch else if b = 3 then .rpcRequest
  else if b = 4 then .response else .unknown b

/-- The 8-byte TDS packet header (`TdsHeader` in `src/tds.rs`). -/
structure TdsHeader where
  packetType : TdsPacketType
  status : Nat
  length : Nat
  spid : Nat
  packetId : Nat
  window : Nat
deriving DecidableEq, Repr

/-- Modelled from the spec: `PacketHeader::decode` of the external
`tds-protocol` crate, whose source is not part of this repository. Per the
spec's wire-format section and data model: an 8-byte header with fields at
fixed offsets; `length` is a big-endian u16 that includes the header, with
the invariant `length ≥ 8`; `SPID` is a u16; decoding fails on a buffer
shorter than 8 bytes or on a `length` violating the invariant. Every
theorem below exercises this definition only on buffers whose first byte
is 0x01 or 0x03 (the callers in `src/tds.rs` pre-filter on that byte). -/
def headerDecode (bytes : List Nat) : Option TdsHeader :=
  if bytes.length < 8 then none
  else
    let len := be16 (bytes.getD 2 0) (bytes.getD 3 0)
    if len < 8 then none
    else
      some { packetType := TdsPacketType.ofByte (bytes.getD 0 0)
             status := bytes.getD 1 0
             length := len
             spid := be16 (bytes.getD 4 0) (bytes.getD 5 0)
             packetId := bytes.getD 6 0
             window := bytes.getD 7 0 }

/-- `TdsParser::looks_like_tds`: at least 8 bytes, first byte 0x01 or 0x03,
header decodes, and the decoded type is SqlBatch or Rpc. -/
def looksLikeTds (bytes : List Nat) : Bool :=
  if bytes.length < 8 then false
  else
    let b0 := bytes.getD 0 0
    if b0 ≠ 1 ∧ b0 ≠ 3 then false
    else
      match headerDecode (bytes.take 8) with
      | none => false
      | some h => h.packetType = .sqlBatch ∨ h.packetType = .rpcRequest

/-- `TdsParser::parse_header`. -/
def parseHeader (data : List Nat) : Option TdsHeader :=
  if data.length < 8 then none else headerDecode (data.take 8)

/-- `TdsParser::extract_payload`: strip the 8-byte header and, for
SqlBatch/Rpc packets of at least 12 bytes, a plausible ALL_HEADERS
section whose little-endian u32 TotalLength sits at offset 8; the body
ends at `min(header.length, data.len())` and `None` is returned when the
resulting range is empty. -/
def extractPayload (data : List Nat) : Option (List Nat) :=
  if data.length < 8 then none
  else
    match parseHeader data with
    | none => none
    | some header =>
      -- the source logs a debug message when data.len() < header.length;
      -- logging has no effect on the result
      let bodyStart :=
        if (header.packetType = .sqlBatch ∨ header.packetType = .rpcRequest)
            ∧ 12 ≤ data.length then
          let allHeadersTotal := le32 data 8
          if 0 < allHeadersTotal ∧ allHeadersTotal ≤ 65535
              ∧ 8 + allHeadersTotal ≤ data.length then
            8 + allHeadersTotal
          else 8
        else 8
      if data.length ≤ bodyStart then none
      else
        let e := min header.length data.length
        if bodyStart < e then some ((data.take e).drop bodyStart) else none

/-- `TdsParser::decode_utf16le`: optionally strip a TDS header (and for
SqlBatch a plausible ALL_HEADERS section), truncate to even length,
UTF-16LE-decode, and reject results that are shorter than 3 trimmed UTF-8
bytes or more than half control characters. -/
def decodeUtf16le (bytes : List Nat) : Option String :=
  if bytes.isEmpty then none
  else
    let dataOpt : Option (List Nat) :=
      if bytes.length > 8 ∧ looksLikeTds bytes then
        match headerDecode (bytes.take 8) with
        | some header =>
          if header.packetType = .sqlBatch ∧ 12 ≤ bytes.length then
            let allHeadersTotal := le32 bytes 8
            if 0 < allHeadersTotal ∧ allHeadersTotal ≤ 65535
                ∧ 8 + allHeadersTotal ≤ bytes.length then
              some (bytes.drop (8 + allHeadersTotal))
            else some (bytes.drop 8)
          else some (bytes.drop 8)
        | none => none   -- `Err(_) => return None`
      else some bytes
    match dataOpt with
    | none => none
    | some data =>
      if data.isEmpty then none
      else
        let data := if data.length % 2 ≠ 0 then data.take (data.length - 1) else data
        if data.isEmpty then none
        else
          let result : String := utf16LeDecode data
          let trimmed := rustTrim result
          if utf8Len trimmed < 3 then none
          else
            let printableCount :=
              (trimmed.data.filter fun c => !(rustIsControl c) || rustIsWhitespace c).length
            if printableCount * 2 < trimmed.data.length then none
            else some result

/-- Placeholder rendering of an f64 read in the RPC FLOAT (0x6A) branch.
Rust formats the value with `{}` (float `Display`); IEEE-754 formatting is
not modelled — this branch is exercised by no theorem in this development
(none of the claims concerns FLOAT parameters), and only the fact that
*some* string is pushed matters to the surrounding control flow. -/
def floatRepr (bytes : List Nat) : String :=
  joinSep "," (bytes.map (fun b => toString b))

/-- One pass of the RPC parameter loop of `TdsParser::parse_rpc_packet`
(the `while pos < packet_length && pos < data.len()` loop). `fuel` bounds
the number of iterations; every iteration advances `pos` by at least 3, so
any fuel ≥ `data.length` is exact (the 0-fuel fallback is unreachable). -/
def rpcParamLoop (data : List Nat) (packetLength : Nat) :
    Nat → Nat → List String → List String
  | 0, _, sqlParts => sqlParts
  | fuel + 1, pos, sqlParts =>
    if pos < packetLength ∧ pos < data.length then
      -- `if pos >= data.len() { break; }` is subsumed by the loop guard
      let paramNameLen := data.getD pos 0
      let pos := pos + 1
      if data.length < pos + paramNameLen * 2 then sqlParts
      else
        let paramName := utf16LeDecode (sliceAt data pos (paramNameLen * 2))
        let pos := pos + paramNameLen * 2
        -- StatusFlags (1 byte)
        if data.length ≤ pos then sqlParts
        else
          let pos := pos + 1
          -- TYPE_INFO
          if data.length ≤ pos then sqlParts
          else
            let typeId := data.getD pos 0
            let pos := pos + 1
            if typeId = 0xE7 then
              -- NVARCHAR: maxLen(2) + collation(5)
              if data.length < pos + 7 then sqlParts
              else
                let pos := pos + 7
                if data.length < pos + 2 then sqlParts
                else
                  let dataLen := le16 (data.getD pos 0) (data.getD (pos+1) 0)
                  let pos := pos + 2
                  if dataLen = 0xFFFF then rpcParamLoop data packetLength fuel pos sqlParts
                  else if data.length < pos + dataLen then sqlParts
                  else
                    let dataBytes := sliceAt data pos dataLen
                    let pos := pos + dataLen
                    let sqlParts :=
                      if dataBytes.length % 2 = 0 then
                        let decoded := utf16LeDecode dataBytes
                        let trimmed := rustTrim decoded
                        if ¬strIsEmpty trimmed then
                          if paramName = "@stmt" ∨ paramName = "@statement" then
                            trimmed :: sqlParts     -- sql_parts.insert(0, …)
                          else sqlParts ++ [paramName ++ "=" ++ trimmed]
                        else sqlParts
                      else sqlParts
                    rpcParamLoop data packetLength fuel pos sqlParts
            else if typeId = 0xA7 then
              -- VARCHAR: maxLen(2) + collation(5)
              if data.length < pos + 7 then sqlParts
              else
                let pos := pos + 7
                if data.length < pos + 2 then sqlParts
                else
                  let dataLen := le16 (data.getD pos 0) (data.getD (pos+1) 0)
                  let pos := pos + 2
                  if dataLen = 0xFFFF then rpcParamLoop data packetLength fuel pos sqlParts
                  else if data.length < pos + dataLen then sqlParts
                  else
                    let dataBytes := sliceAt data pos dataLen
                    let pos := pos + dataLen
                    let sqlParts :=
                      match stringFromUtf8 dataBytes with
                      | some decoded =>
                        if ¬strIsEmpty (rustTrim decoded) then
                          sqlParts ++ [paramName ++ "=" ++ decoded]
                        else sqlParts
                      | none => sqlParts
                    rpcParamLoop data packetLength fuel pos sqlParts
            else if typeId = 0x26 then
              -- INT: no extra TYPE_INFO bytes
              if data.length < pos + 2 then sqlParts
              else
                let dataLen := le16 (data.getD pos 0) (data.getD (pos+1) 0)
                let pos := pos + 2
                if dataLen = 0xFFFF then rpcParamLoop data packetLength fuel pos sqlParts
                else if data.length < pos + dataLen then sqlParts
                else
                  let sqlParts :=
                    if dataLen = 4 then
                      let intVal := i32FromLeBytes (data.getD pos 0) (data.getD (pos+1) 0)
                        (data.getD (pos+2) 0) (data.getD (pos+3) 0)
                      sqlParts ++ [paramName ++ "=" ++ toString intVal]
                    else sqlParts
                  rpcParamLoop data packetLength fuel (pos + dataLen) sqlParts
            else if typeId = 0x6A then
              -- FLOAT: no extra TYPE_INFO bytes
              if data.length < pos + 2 then sqlParts
              else
                let dataLen := le16 (data.getD pos 0) (data.getD (pos+1) 0)
                let pos := pos + 2
                if dataLen = 0xFFFF then rpcParamLoop data packetLength fuel pos sqlParts
                else if data.length < pos + dataLen then sqlParts
                else
                  let sqlParts :=
                    if dataLen = 8 then
                      sqlParts ++ [paramName ++ "=" ++ floatRepr (sliceAt data pos 8)]
                    else sqlParts
                  rpcParamLoop data packetLength fuel (pos + dataLen) sqlParts
            else
              -- unknown type: read DataLength, skip that many bytes
              if data.length < pos + 2 then sqlParts
              else
                let dataLen := le16 (data.getD pos 0) (data.getD (pos+1) 0)
                let pos := pos + 2
                if dataLen = 0xFFFF then rpcParamLoop data packetLength fuel pos sqlParts
                else if data.length < pos + dataLen then sqlParts
                else rpcParamLoop data packetLength fuel (pos + dataLen) sqlParts
    else sqlParts

/-- `TdsParser::parse_rpc_packet`: parse the RPC (0x03) packet's binary
parameter stream and compose the extracted SQL string. The final
condition keeps the Rust operator precedence: `a && b || c || d || e || f`
parses as `(a && b) || c || d || e || f`. -/
def parseRpcPacket (data : List Nat) : Option String :=
  if data.length < 8 then none
  else
    let packetLength := be16 (data.getD 2 0) (data.getD 3 0)
    if data.length < packetLength then none
    else
      -- skip TDS header, then ALL_HEADERS when plausible
      let pos := 8
      let pos :=
        if pos + 4 ≤ data.length then
          let totalHeaderLen := le32 data pos
          if 0 < totalHeaderLen ∧ totalHeaderLen ≤ 65535
              ∧ pos + totalHeaderLen ≤ data.length then pos + totalHeaderLen
          else pos
        else pos
      -- ProcID vs ProcName
      if data.length < pos + 2 then none
      else
        let procIdMarker := le16 (data.getD pos 0) (data.getD (pos+1) 0)
        let afterProc : Option Nat :=
          if procIdMarker = 0xFFFF then
            let pos := pos + 2
            if data.length < pos + 2 then none
            else some (pos + 2)    -- the ProcID itself is read and discarded
          else
            -- ProcName: re-read the marker position as a u8 length,
            -- then skip the UTF-16LE name (logged only)
            if data.length ≤ pos then none
            else
              let nameLen := data.getD pos 0
              let pos := pos + 1
              if data.length < pos + nameLen * 2 then none
              else some (pos + nameLen * 2)
        match afterProc with
        | none => none
        | some pos =>
          -- OptionFlags (2 bytes)
          if data.length < pos + 2 then none
          else
            let pos := pos + 2
            let sqlParts := rpcParamLoop data packetLength (data.length + 1) pos []
            if sqlParts.isEmpty then none
            else
              let first := sqlParts.headD ""
              let result :=
                if (sqlParts.length > 1 ∧ startsWithS first "SELECT")
                    ∨ startsWithS first "INSERT"
                    ∨ startsWithS first "UPDATE"
                    ∨ startsWithS first "DELETE"
                    ∨ startsWithS first "EXEC" then
                  first ++ " -- " ++ joinSep ", " sqlParts.tail
                else joinSep " | " sqlParts
              some result

/-- `TdsParser::decode_tds_packet`: identify, parse the header, and
dispatch on the packet type (RPC to the binary parser, everything else to
payload extraction + UTF-16LE decoding). -/
def decodeTdsPacket (data : List Nat) : Option String :=
  if ¬looksLikeTds data then none
  else
    match parseHeader data with
    | none => none
    | some header =>
      match header.packetType with
      | .rpcRequest => parseRpcPacket data
      | _ =>
        match extractPayload data with
        | none => none
        | some payload => decodeUtf16le payload

/-- The framing loop of `TdsParser::decode_tds_packets_with_raw`, written
with explicit fuel: each iteration either stops or drops at least one byte
from the front of the buffer, so any fuel ≥ `buf.length` is exact (the
0-fuel fallback is unreachable; see `framerFuelIrrelevant`-style lemmas in
the theorems below for the uses that need it). -/
def framerLoop : Nat → List Nat → List String × List (List Nat)
  | 0, _ => ([], [])
  | fuel + 1, buf =>
    if buf.length < 8 then ([], [])
    else
      let packetTypeByte := buf.getD 0 0
      if packetTypeByte ≠ 1 ∧ packetTypeByte ≠ 3 then
        framerLoop fuel (buf.drop 1)
      else
        match headerDecode (buf.take 8) with
        | none => framerLoop fuel (buf.drop 1)
        | some header =>
          if ¬(header.packetType = .sqlBatch ∨ header.packetType = .rpcRequest) then
            let packetLength := header.length
            if buf.length < packetLength then ([], [])
            else framerLoop fuel (buf.drop packetLength)
          else
            let packetLength := header.length
            if buf.length < packetLength then ([], [])
            else
              let packet := buf.take packetLength
              let rest := framerLoop fuel (buf.drop packetLength)
              match decodeTdsPacket packet with
              | some decoded => (decoded :: rest.1, packet :: rest.2)
              | none => rest

/-- `TdsParser::decode_tds_packets_with_raw`. -/
def decodeTdsPacketsWithRaw (data : List Nat) : List String × List (List Nat) :=
  framerLoop data.length data

/-- `TdsParser::decode_tds_packets`. -/
def decodeTdsPackets (data : List Nat) : List String :=
  (decodeTdsPacketsWithRaw data).1

/-- Instrumentation of the same framing loop: the sequence of carved
packets passed to `decode_tds_packet` (the "decode attempts"), in order.
The control flow is identical to `framerLoop`; only the collected output
differs. -/
def framerAttemptsLoop : Nat → List Nat → List (List Nat)
  | 0, _ => []
  | fuel + 1, buf =>
    if buf.length < 8 then []
    else
      let packetTypeByte := buf.getD 0 0
      if packetTypeByte ≠ 1 ∧ packetTypeByte ≠ 3 then
        framerAttemptsLoop fuel (buf.drop 1)
      else
        match headerDecode (buf.take 8) with
        | none => framerAttemptsLoop fuel (buf.drop 1)
        | some header =>
          if ¬(header.packetType = .sqlBatch ∨ header.packetType = .rpcRequest) then
            let packetLength := header.length
            if buf.length < packetLength then []
            else framerAttemptsLoop fuel (buf.drop packetLength)
          else
            let packetLength := header.length
            if buf.length < packetLength then []
            else
              buf.take packetLength :: framerAttemptsLoop fuel (buf.drop packetLength)

/-- The decode attempts performed by `decode_tds_packets_with_raw` on a
buffer. -/
def framingAttempts (data : List Nat) : List (List Nat) :=
  framerAttemptsLoop data.length data

/-! ## `src/tcp.rs`: flow identity and TCP stream reassembly -/

/-- 2^32, the u32 modulus. -/
def M32 : Nat := 4294967296

/-- `FlowId`: a canonicalized 4-tuple. IPv4 addresses are modelled by
their 32-bit numeric value (the ordering of `std::net::IpAddr` on two V4
addresses is the lexicographic octet order, i.e. the numeric order). -/
structure FlowId where
  srcIp : Nat
  srcPort : Nat
  dstIp : Nat
  dstPort : Nat
deriving DecidableEq, Repr

/-- `FlowId::new`: order the two endpoints so the smaller `(ip, port)`
pair (Rust tuple lexicographic `<=`) comes first. -/
def FlowId.new (srcIp srcPort dstIp dstPort : Nat) : FlowId :=
  if srcIp < dstIp ∨ (srcIp = dstIp ∧ srcPort ≤ dstPort) then
    ⟨srcIp, srcPort, dstIp, dstPort⟩
  else
    ⟨dstIp, dstPort, srcIp, srcPort⟩

/-- `FlowId::is_client_to_server`. -/
def FlowId.isClientToServer (f : FlowId) (srcIp srcPort : Nat) : Bool :=
  srcIp = f.srcIp ∧ srcPort = f.srcPort

/-- `TcpSegment`. `seq` models a u32 (the program only ever stores values
< 2^32 there). The `timestamp: f64` field is never read by reassembly and
is omitted from the embedding. -/
structure TcpSegment where
  seq : Nat
  data : List Nat
deriving DecidableEq, Repr

/-- Stable insertion of a segment into a seq-sorted list: the new segment
goes before the first strictly larger key, after all equal keys already
present. -/
def insertSeg (t : TcpSegment) : List TcpSegment → List TcpSegment
  | [] => [t]
  | u :: us => if u.seq < t.seq then u :: insertSeg t us else t :: u :: us

/-- `sorted.sort_by_key(|s| s.seq)`: a stable ascending sort by `seq`.
Rust's `sort_by_key` is stable, and a stable sort by a key is unique, so
it is modelled by stable insertion sort. -/
def sortSegs : List TcpSegment → List TcpSegment
  | [] => []
  | x :: xs => insertSeg x (sortSegs xs)

/-- The `for segment in sorted` loop of
`TcpReassembler::reassemble_segments`, with `expected_seq` and the output
accumulator as explicit state. All u32 arithmetic
(`expected_seq - segment.seq`, `segment.data.len() as u32`, the wrapping
`+`) is carried out in `Nat` with explicit `% M32`; the `break` on a gap
becomes returning the accumulator. -/
def reassembleLoop (e : Nat) (acc : List Nat) : List TcpSegment → List Nat
  | [] => acc
  | s :: rest =>
    if s.seq < e then
      let overlap := e - s.seq
      let lenu := s.data.length % M32
      if overlap < lenu then
        reassembleLoop ((s.seq + lenu) % M32) (acc ++ s.data.drop overlap) rest
      else reassembleLoop e acc rest
    else if s.seq = e then
      reassembleLoop ((s.seq + s.data.length % M32) % M32) (acc ++ s.data) rest
    else acc

/-- `TcpReassembler::reassemble_segments`: `None` on an empty segment
list, otherwise run the loop over the seq-sorted segments starting from
the first sorted segment's seq; `None` when nothing was assembled. (The
source checks `segments.is_empty()` before sorting; sorting preserves
emptiness, so the check is made on the sorted list.) -/
def reassembleSegments (segments : List TcpSegment) : Option (List Nat) :=
  match sortSegs segments with
  | [] => none
  | s0 :: rest =>
    let result := reassembleLoop s0.seq [] (s0 :: rest)
    if result.isEmpty then none else some result

/-- The per-flow `TcpStream` state (the two `#[allow(dead_code)]`
`next_seq` fields are never read and are omitted). The embedding models
the single flow the claims quantify over; the `HashMap<FlowId, TcpStream>`
in `TcpReassembler` delegates per-flow to exactly this state. -/
structure TcpStream where
  clientSegments : List TcpSegment
  serverSegments : List TcpSegment
deriving Repr

/-- The empty stream a fresh flow starts from (`or_insert_with`). -/
def TcpStream.empty : TcpStream := ⟨[], []⟩

/-- `TcpReassembler::add_packet`, at the level of one flow's stream:
classify the direction with `FlowId::is_client_to_server` and push the
segment onto the matching list. -/
def addPacket (flowId : FlowId) (srcIp srcPort seq : Nat) (data : List Nat)
    (st : TcpStream) : TcpStream :=
  let isClient := flowId.isClientToServer srcIp srcPort
  let segment : TcpSegment := ⟨seq, data⟩
  if isClient then { st with clientSegments := st.clientSegments ++ [segment] }
  else { st with serverSegments := st.serverSegments ++ [segment] }

/-- `TcpReassembler::get_client_data` for the flow's stream. -/
def getClientData (st : TcpStream) : Option (List Nat) :=
  reassembleSegments st.clientSegments

/-- `TcpReassembler::get_server_data` for the flow's stream. -/
def getServerData (st : TcpStream) : Option (List Nat) :=
  reassembleSegments st.serverSegments

/-! ## `src/extractor.rs`: packet dissection and operation extraction -/

/-- `Extractor::is_tds_packet`: non-empty payload whose first byte is a
known TDS packet-type byte. -/
def isTdsPacket (payload : List Nat) : Bool :=
  if payload.isEmpty then false
  else
    let packetType := payload.getD 0 0
    packetType = 0x01 ∨ packetType = 0x03 ∨ packetType = 0x04 ∨ packetType = 0x06 ∨
      packetType = 0x07 ∨ packetType = 0x08 ∨ packetType = 0x0E ∨ packetType = 0x0F ∨
      packetType = 0x10 ∨ packetType = 0x11 ∨ packetType = 0x12 ∨ packetType = 0x13 ∨
      packetType = 0x14 ∨ packetType = 0x15 ∨ packetType = 0x16 ∨ packetType = 0x17 ∨
      packetType = 0x18

/-- The result type of `Extractor::parse_packet`:
`(FlowId, seq, payload, is_client)`. -/
abbrev ParsedPacket := FlowId × Nat × List Nat × Bool

/-- A checked byte read `data[i]`: `Except.error` models the Rust panic an
out-of-bounds index would raise. -/
def readByte (data : List Nat) (i : Nat) : Except String Nat :=
  match data[i]? with
  | some b => .ok b
  | none => .error "index out of bounds"

/-- A checked suffix slice `data[i..]`: errors (panics) when `i` exceeds
the length. -/
def sliceFrom (data : List Nat) (i : Nat) : Except String (List Nat) :=
  if i ≤ data.length then .ok (data.drop i) else .error "slice out of bounds"

/-- `Extractor::parse_packet` with every byte access and slice made
explicit in `Except String`, so that `.error` marks exactly the inputs on
which the Rust code would panic, `.ok none` the frames it rejects, and
`.ok (some _)` the frames it accepts. The unused `_timestamp: f64`
parameter is omitted. Shifts and masks on a byte are `Nat` division and
remainder (`>> 4` = `/ 16`, `& 0x0F` = `% 16`, `* 4` unchanged). -/
def parsePacketChecked (data : List Nat) : Except String (Option ParsedPacket) :=
  -- Ethernet header (14 bytes)
  if data.length < 14 then .ok none
  else
    -- ip_start = 14; require 20 bytes of IPv4
    if data.length < 14 + 20 then .ok none
    else do
      let b14 ← readByte data 14
      let version := b14 / 16 % 16
      if version ≠ 4 then return none
      let ipHeaderLen := b14 % 16 * 4
      let protocol ← readByte data (14 + 9)
      if protocol ≠ 6 then return none
      let sa ← readByte data (14 + 12)
      let sb ← readByte data (14 + 13)
      let sc ← readByte data (14 + 14)
      let sd ← readByte data (14 + 15)
      let srcIp := be32Of sa sb sc sd
      let da ← readByte data (14 + 16)
      let db ← readByte data (14 + 17)
      let dc ← readByte data (14 + 18)
      let dd ← readByte data (14 + 19)
      let dstIp := be32Of da db dc dd
      let tcpStart := 14 + ipHeaderLen
      if data.length < tcpStart + 20 then return none
      let p0 ← readByte data tcpStart
      let p1 ← readByte data (tcpStart + 1)
      let p2 ← readByte data (tcpStart + 2)
      let p3 ← readByte data (tcpStart + 3)
      let srcPort := be16 p0 p1
      let dstPort := be16 p2 p3
      let isTdsPort := srcPort = 1433 ∨ dstPort = 1433
      let q0 ← readByte data (tcpStart + 4)
      let q1 ← readByte data (tcpStart + 5)
      let q2 ← readByte data (tcpStart + 6)
      let q3 ← readByte data (tcpStart + 7)
      let seq := be32Of q0 q1 q2 q3
      let b12 ← readByte data (tcpStart + 12)
      let tcpHeaderLen := b12 / 16 * 4
      let payloadStart := tcpStart + tcpHeaderLen
      if data.length < payloadStart then return none
      let payload ← sliceFrom data payloadStart
      let isTds := isTdsPort ∨ isTdsPacket payload
      if ¬isTds then return none
      let flowId := FlowId.new srcIp srcPort dstIp dstPort
      let isClient := flowId.isClientToServer srcIp srcPort
      return some (flowId, seq, payload, isClient)

/-- `Extractor::parse_packet` as the `Option` the caller sees (the error
case never occurs; see the panic-freedom theorem). -/
def parsePacket (data : List Nat) : Option ParsedPacket :=
  match parsePacketChecked data with
  | .ok r => r
  | .error _ => none

/-- Readable projections of the frame fields `parse_packet` reads, for
stating properties of accepted frames: the IP header length nibble, the
TCP header offsets, ports and payload. On frames `parse_packet` accepts
these agree with the values it computed internally. -/
def ipHeaderLenOf (data : List Nat) : Nat := data.getD 14 0 % 16 * 4

/-- Start offset of the TCP header. -/
def tcpStartOf (data : List Nat) : Nat := 14 + ipHeaderLenOf data

/-- The TCP source port of a frame. -/
def srcPortOf (data : List Nat) : Nat :=
  be16 (data.getD (tcpStartOf data) 0) (data.getD (tcpStartOf data + 1) 0)

/-- The TCP destination port of a frame. -/
def dstPortOf (data : List Nat) : Nat :=
  be16 (data.getD (tcpStartOf data + 2) 0) (data.getD (tcpStartOf data + 3) 0)

/-- The TCP payload of a frame. -/
def payloadOf (data : List Nat) : List Nat :=
  data.drop (tcpStartOf data + data.getD (tcpStartOf data + 12) 0 / 16 * 4)

/-- Rust `str::to_uppercase`, restricted to the ASCII mapping (the
keywords compared against are ASCII; non-ASCII case mapping cannot change
which of the fixed literals below is returned). -/
def asciiUpper (s : String) : String := ⟨s.data.map Char.toUpper⟩

/-- `Extractor::extract_operation`: classify the SQL text by its leading
keyword after trimming and uppercasing. -/
def extractOperation (sql : String) : String :=
  let upper := asciiUpper (rustTrim sql)
  if startsWithS upper "SELECT" then "SELECT"
  else if startsWithS upper "INSERT" then "INSERT"
  else if startsWithS upper "UPDATE" then "UPDATE"
  else if startsWithS upper "DELETE" then "DELETE"
  else if startsWithS upper "EXEC" ∨ startsWithS upper "EXECUTE" then "EXEC"
  else if startsWithS upper "CREATE" then "CREATE"
  else if startsWithS upper "ALTER" then "ALTER"
  else if startsWithS upper "DROP" then "DROP"
  else "UNKNOWN"

/-! ## `src/output.rs` and `src/gui.rs`: events and deduplication -/

/-- `SqlEvent` (`src/output.rs`). `timestamp` models the
`chrono::DateTime<Utc>` value; no claim depends on time arithmetic, so it
is an abstract `Nat`. -/
structure SqlEvent where
  timestamp : Nat
  flowId : String
  sqlText : String
  tables : List String
  operation : String
  label : Option String
  rawData : Option (List Nat)
deriving Repr

/-- Association-list lookup modelling `HashMap::get` on
`unique_sql_map : HashMap<String, usize>`. -/
def lookupMap (m : List (String × Nat)) (k : String) : Option Nat :=
  (m.find? fun p => p.1 = k).map (·.2)

/-- The dedup-relevant part of `GuiState`: the event list and the
`sql_text -> first index` map. The grouping maps, logger and UI fields of
`GuiState` never modify `events` or `unique_sql_map` and are omitted. -/
structure GuiStateM where
  events : List SqlEvent
  uniqueSqlMap : List (String × Nat)
deriving Repr

/-- `GuiState::new()` / `start_capture()`: empty events and map. -/
def GuiStateM.empty : GuiStateM := ⟨[], []⟩

/-- The deduplication head of `GuiState::add_event`: trim the SQL text;
if the key is already in `unique_sql_map`, keep the state (the event is a
duplicate and is not pushed); otherwise push the event and record the key
with its index. (The subsequent grouping/logging code of `add_event` does
not touch `events` or `unique_sql_map`.) -/
def addEvent (st : GuiStateM) (event : SqlEvent) : GuiStateM :=
  let sqlKey := rustTrim event.sqlText
  match lookupMap st.uniqueSqlMap sqlKey with
  | some _ => st
  | none =>
    { events := st.events ++ [event]
      uniqueSqlMap := st.uniqueSqlMap ++ [(sqlKey, st.events.length)] }


/-! ## Concrete scenario inputs -/

/-- Scenario S3 of the spec: an RPC (0x03) sp_executesql message, 107
bytes. TDS header (type 3, status 1, length 0x006B = 107), ProcID marker
FF FF, ProcID 0A 00 (sp_executesql), OptionFlags 00 00; NVARCHAR (0xE7)
parameter `@stmt` (maxLen 4096, a 5-byte collation, DataLen 56) with
value `"SELECT * FROM T WHERE id=@id"` in UTF-16LE; INT (0x26) parameter
`@id` with DataLen 4 and little-endian value 7. -/
def s3Bytes : List Nat := [3, 1, 0, 107, 0, 0, 1, 0, 255, 255, 10, 0, 0, 0, 5, 64, 0, 115, 0, 116, 0, 109, 0, 116, 0, 0, 231, 0, 16, 9, 4, 208, 0, 52, 56, 0, 83, 0, 69, 0, 76, 0, 69, 0, 67, 0, 84, 0, 32, 0, 42, 0, 32, 0, 70, 0, 82, 0, 79, 0, 77, 0, 32, 0, 84, 0, 32, 0, 87, 0, 72, 0, 69, 0, 82, 0, 69, 0, 32, 0, 105, 0, 100, 0, 61, 0, 64, 0, 105, 0, 100, 0, 3, 64, 0, 105, 0, 100, 0, 0, 38, 4, 0, 7, 0, 0, 0]

/-- Scenario S1 of the spec, byte for byte: SQLBatch header
`01 01 00 1C 00 00 01 00` (length field 0x001C = 28), ALL_HEADERS with
TotalLength 0x16 = 22 at offset 8, then the UTF-16LE body `"SELECT 1"`;
44 bytes in total. -/
def s1Bytes : List Nat := [1, 1, 0, 28, 0, 0, 1, 0, 22, 0, 0, 0, 18, 0, 0, 0, 2, 0, 0, 0, 0, 0, 0, 0, 1, 0, 0, 0, 83, 0, 69, 0, 76, 0, 69, 0, 67, 0, 84, 0, 32, 0, 49, 0]

/-- UTF-16LE bytes of `"AAAA\x00B"`: four `A`s, a NUL code unit, then
`B`. -/
def nulBytes : List Nat := [65, 0, 65, 0, 65, 0, 65, 0, 0, 0, 66, 0]

set_option maxRecDepth 10000

/-! ## C2: RPC sp_executesql scenario S3 -/

/-- C2: for the S3 RPC message (TDS type 0x03, ProcID marker FF FF,
ProcID 0A 00, OptionFlags 00 00, NVARCHAR parameter `@stmt` =
`"SELECT * FROM T WHERE id=@id"`, INT parameter `@id` = 7), decoding via
`decode_tds_packet` / `parse_rpc_packet` returns exactly the string
`"SELECT * FROM T WHERE id=@id -- @id=7"`. -/
theorem c2_s3_rpc_decode :
    decodeTdsPacket s3Bytes = some "SELECT * FROM T WHERE id=@id -- @id=7" := by
  decide

/-! ## C7: the `operation` field -/

/-- C7 counterexample: the claim "every structured-path event has
operation TDS; in particular scenario S1 yields one event with sql_text
SELECT 1 and operation TDS" is false on the code: the S1 bytes produce no
decoded text at all (their header length field 0x001C = 28 cuts the
message before the SQL body, and the carved 28-byte packet fails the
printable-ratio filter), and the operation computed for the text
`"SELECT 1"` is `"SELECT"`, not `"TDS"`. -/
theorem c7_counterexample :
    decodeTdsPackets s1Bytes = [] ∧ extractOperation "SELECT 1" = "SELECT" := by
  decide

/-- C7 (amended): every event's `operation` is
`extract_operation(sql_text)` — the leading-keyword classification, which
never returns the literal `"TDS"` — and the S1 byte sequence yields no
decoded text (hence no event) because its header length field truncates
the message before the SQL body. -/
theorem c7_operation_never_tds :
    (∀ sql : String, extractOperation sql ≠ "TDS") ∧ decodeTdsPackets s1Bytes = [] := by
  refine ⟨fun sql => ?_, by decide⟩
  simp only [extractOperation]
  repeat' split
  all_goals decide

/-! ## C8: NUL handling in `decode_utf16le` -/

/-- C8 counterexample: the claim "leading NUL code units are stripped and
the first interior NUL terminates the string, so the returned string
never contains a NUL" is false on the code: the UTF-16LE input of
`"AAAA\x00B"` is accepted by `decode_utf16le` and the returned string
contains the NUL character (with `B` still after it). -/
theorem c8_counterexample :
    decodeUtf16le nulBytes = some "AAAA\x00B" ∧
      ("AAAA\x00B" : String).data.contains (Char.ofNat 0) = true := by
  decide

/-- C8 (amended): `decode_utf16le` performs no NUL stripping and no NUL
termination: for this accepted input it returns exactly the raw UTF-16LE
decode of the bytes, whose character list `['A','A','A','A',NUL,'B']`
retains the interior NUL and the content after it. -/
theorem c8_nul_retained :
    decodeUtf16le nulBytes = some ⟨utf16ToChars (utf16UnitsLE nulBytes)⟩ ∧
      utf16ToChars (utf16UnitsLE nulBytes) =
        ['A', 'A', 'A', 'A', Char.ofNat 0, 'B'] := by
  decide


/-! ## C4: `extract_payload` body range -/

/-- On an index below the take bound, `getD` ignores the take. -/
theorem getD_take (l : List Nat) (n i : Nat) (h : i < n) :
    (l.take n).getD i 0 = l.getD i 0 := by
  simp [List.getD_eq_getElem?_getD, List.getElem?_take, h]

/-- C4: for every SQLBatch message (first byte 1) of at least 12 bytes,
`extract_payload` starts the body at `8 + total` — where `total` is the
little-endian u32 at offset 8 — exactly when `0 < total ≤ 65535` and
`8 + total ≤ len(msg)`, and at offset 8 otherwise; the body ends at
`min(header.length, len(msg))`, and the result is `None` exactly when
that range is empty. -/
theorem c4_extract_payload_spec (msg : List Nat)
    (h12 : 12 ≤ msg.length) (h0 : msg.getD 0 0 = 1) :
    extractPayload msg =
      (let total := le32 msg 8
       let start := if 0 < total ∧ total ≤ 65535 ∧ 8 + total ≤ msg.length then 8 + total else 8
       let stop := min (be16 (msg.getD 2 0) (msg.getD 3 0)) msg.length
       if start < stop then some ((msg.take stop).drop start) else none) := by
  have hl8 : ¬(msg.length < 8) := by omega
  have ht : (msg.take 8).length = 8 := by simp; omega
  have hdec : headerDecode (msg.take 8) =
      (if be16 (msg.getD 2 0) (msg.getD 3 0) < 8 then none
       else some { packetType := .sqlBatch, status := msg.getD 1 0,
                   length := be16 (msg.getD 2 0) (msg.getD 3 0),
                   spid := be16 (msg.getD 4 0) (msg.getD 5 0),
                   packetId := msg.getD 6 0, window := msg.getD 7 0 }) := by
    simp only [headerDecode, ht, getD_take msg 8 0 (by omega), getD_take msg 8 1 (by omega),
      getD_take msg 8 2 (by omega), getD_take msg 8 3 (by omega), getD_take msg 8 4 (by omega),
      getD_take msg 8 5 (by omega), getD_take msg 8 6 (by omega), getD_take msg 8 7 (by omega),
      h0, TdsPacketType.ofByte]
    norm_num
  simp only [extractPayload, parseHeader, hl8, if_false, hdec]
  set t := le32 msg 8 with hT
  set len := be16 (msg.getD 2 0) (msg.getD 3 0) with hL
  set start := (if 0 < t ∧ t ≤ 65535 ∧ 8 + t ≤ msg.length then 8 + t else 8) with hS
  have hstart8 : 8 ≤ start := by rw [hS]; split <;> omega
  by_cases hsmall : len < 8
  · rw [if_pos hsmall]
    rw [if_neg (by omega : ¬ start < min len msg.length)]
  · rw [if_neg hsmall]
    simp only [h12, and_true, true_or, if_true, eq_self_iff_true, true_and]
    by_cases hcase : msg.length ≤ start
    · rw [if_pos hcase]
      rw [if_neg (by omega : ¬ start < min len msg.length)]
    · rw [if_neg hcase]

/-- C4 witness: the 28-byte SQLBatch prefix the framer carves from the S1
bytes has a malformed/oversized ALL_HEADERS field (`total` = 22 but
`8 + 22 > 28`), so the body starts at 8 and runs to
`min(28, 28)`, giving the 20 bytes after the header. -/
theorem c4_extract_payload_witness :
    extractPayload (s1Bytes.take 28) =
      some [22, 0, 0, 0, 18, 0, 0, 0, 2, 0, 0, 0, 0, 0, 0, 0, 1, 0, 0, 0] := by
  rw [c4_extract_payload_spec (s1Bytes.take 28) (by decide) (by decide)]
  decide

/-! ## C5: emitter deduplication by trimmed SQL text -/

/-- The trimmed SQL texts of the stored events. -/
def trimmedKeys (st : GuiStateM) : List String :=
  st.events.map fun e => rustTrim e.sqlText

/-- Consistency of `unique_sql_map` with the event list: a key is in the
map exactly when it is the trimmed text of a stored event. Holds for the
fresh state and is preserved by `add_event`. -/
def MapInv (st : GuiStateM) : Prop :=
  ∀ k, (lookupMap st.uniqueSqlMap k).isSome ↔ k ∈ trimmedKeys st

/-- `lookupMap` finds a key iff some entry carries it. -/
theorem lookupMap_isSome (m : List (String × Nat)) (k : String) :
    (lookupMap m k).isSome ↔ ∃ p, p ∈ m ∧ p.1 = k := by
  simp [lookupMap, List.find?_isSome]

/-- `add_event` preserves the map/event-list consistency invariant. -/
theorem addEvent_inv (st : GuiStateM) (e : SqlEvent) (h : MapInv st) :
    MapInv (addEvent st e) := by
  intro k
  cases hx : lookupMap st.uniqueSqlMap (rustTrim e.sqlText) with
  | some i => simp only [addEvent, hx]; exact h k
  | none =>
    simp only [addEvent, hx, trimmedKeys, List.map_append]
    rw [lookupMap_isSome]
    constructor
    · intro hs
      obtain ⟨p, hp, hpk⟩ := hs
      rcases List.mem_append.mp hp with hl | hr
      · have : (lookupMap st.uniqueSqlMap k).isSome := by
          rw [lookupMap_isSome]; exact ⟨p, hl, hpk⟩
        have := (h k).mp this
        simp only [trimmedKeys] at this
        exact List.mem_append.mpr (Or.inl this)
      · simp only [List.mem_singleton] at hr
        subst hr
        simp only at hpk
        subst hpk
        simp
    · intro hk
      rcases List.mem_append.mp hk with hl | hr
      · have := (h k).mpr (by simpa [trimmedKeys] using hl)
        rw [lookupMap_isSome] at this
        obtain ⟨p, hp, hpk⟩ := this
        exact ⟨p, List.mem_append_left _ hp, hpk⟩
      · simp only [List.map_cons, List.map_nil, List.mem_singleton] at hr
        exact ⟨(rustTrim e.sqlText, st.events.length), by simp, by simp [hr]⟩

/-- `add_event` preserves pairwise distinctness of trimmed texts. -/
theorem addEvent_pairwise (st : GuiStateM) (e : SqlEvent) (hinv : MapInv st)
    (hp : st.events.Pairwise fun a b => rustTrim a.sqlText ≠ rustTrim b.sqlText) :
    (addEvent st e).events.Pairwise fun a b => rustTrim a.sqlText ≠ rustTrim b.sqlText := by
  cases hx : lookupMap st.uniqueSqlMap (rustTrim e.sqlText) with
  | some i => simp only [addEvent, hx]; exact hp
  | none =>
    simp only [addEvent, hx]
    rw [List.pairwise_append]
    refine ⟨hp, by simp, ?_⟩
    intro a ha b hb
    have hbe : b = e := by simpa using hb
    intro hcontra
    rw [hbe] at hcontra
    have hmem : rustTrim e.sqlText ∈ trimmedKeys st := by
      simp only [trimmedKeys, List.mem_map]
      exact ⟨a, ha, hcontra⟩
    have := (hinv _).mpr hmem
    rw [hx] at this
    simp at this

/-- C5: deduplication by trimmed SQL text. Starting from a fresh
`GuiState`, after any sequence of events is fed through
`GuiState::add_event`, the stored event list contains at most one event
per distinct trimmed `sql_text` (pairwise distinct trimmed texts); and
feeding the same event a second time leaves the event list unchanged
(the duplicate is dropped and produces no second outbound event). -/
theorem c5_dedup_by_trimmed_sql :
    (∀ evs : List SqlEvent,
      ((evs.foldl addEvent GuiStateM.empty).events.Pairwise
        fun a b => rustTrim a.sqlText ≠ rustTrim b.sqlText)) ∧
    (∀ (st : GuiStateM) (e : SqlEvent),
      (addEvent (addEvent st e) e).events = (addEvent st e).events) := by
  constructor
  · intro evs
    suffices h : ∀ st, MapInv st →
        (st.events.Pairwise fun a b => rustTrim a.sqlText ≠ rustTrim b.sqlText) →
        ((evs.foldl addEvent st).events.Pairwise
          fun a b => rustTrim a.sqlText ≠ rustTrim b.sqlText) by
      refine h GuiStateM.empty ?_ (by simp [GuiStateM.empty])
      intro k
      simp [GuiStateM.empty, lookupMap, trimmedKeys]
    induction evs with
    | nil => intro st _ hp; exact hp
    | cons e rest ih =>
      intro st hinv hp
      exact ih _ (addEvent_inv st e hinv) (addEvent_pairwise st e hinv hp)
  · intro st e
    cases hy : lookupMap st.uniqueSqlMap (rustTrim e.sqlText) with
    | some j =>
      have h1 : addEvent st e = st := by simp only [addEvent, hy]
      rw [h1, h1]
    | none =>
      have h1 : addEvent st e =
          { events := st.events ++ [e],
            uniqueSqlMap := st.uniqueSqlMap ++ [(rustTrim e.sqlText, st.events.length)] } := by
        simp only [addEvent, hy]
      rw [h1]
      have h2 : lookupMap (st.uniqueSqlMap ++ [(rustTrim e.sqlText, st.events.length)])
          (rustTrim e.sqlText) = some st.events.length := by
        simp only [lookupMap, List.find?_append]
        simp only [lookupMap] at hy
        cases hz : st.uniqueSqlMap.find? fun p => p.1 = rustTrim e.sqlText with
        | some p => rw [hz] at hy; simp at hy
        | none => simp [List.find?]
      simp only [addEvent, h2]



/-! ## C1: length framing over well-formed message concatenations -/

/-- A well-formed SQLBatch/RPC TDS message: at least 8 bytes, first byte
0x01 or 0x03, and the big-endian u16 length field (which includes the
8-byte header) equal to the message's byte length. -/
def WellFormedTds (m : List Nat) : Prop :=
  8 ≤ m.length ∧ (m.getD 0 0 = 1 ∨ m.getD 0 0 = 3) ∧
    be16 (m.getD 2 0) (m.getD 3 0) = m.length

/-- Evaluate `headerDecode` on the 8-byte prefix of a buffer of length at
least 8. -/
theorem headerDecode_take (buf : List Nat) (h8 : 8 ≤ buf.length) :
    headerDecode (buf.take 8) =
      (if be16 (buf.getD 2 0) (buf.getD 3 0) < 8 then none
       else some { packetType := TdsPacketType.ofByte (buf.getD 0 0),
                   status := buf.getD 1 0,
                   length := be16 (buf.getD 2 0) (buf.getD 3 0),
                   spid := be16 (buf.getD 4 0) (buf.getD 5 0),
                   packetId := buf.getD 6 0, window := buf.getD 7 0 }) := by
  have ht : (buf.take 8).length = 8 := by simp; omega
  simp only [headerDecode, ht, getD_take buf 8 0 (by omega), getD_take buf 8 1 (by omega),
    getD_take buf 8 2 (by omega), getD_take buf 8 3 (by omega), getD_take buf 8 4 (by omega),
    getD_take buf 8 5 (by omega), getD_take buf 8 6 (by omega), getD_take buf 8 7 (by omega)]
  norm_num

/-- The framing loop makes no attempts on an empty buffer. -/
theorem framerAttemptsLoop_nil (fuel : Nat) : framerAttemptsLoop fuel [] = [] := by
  cases fuel <;> simp [framerAttemptsLoop]

/-- On an exact concatenation of well-formed messages, the framing loop
carves each message in turn: its decode attempts are exactly the
messages, in order. -/
theorem framerAttempts_concat (msgs : List (List Nat)) :
    ∀ fuel, (∀ m ∈ msgs, WellFormedTds m) → msgs.flatten.length ≤ fuel →
      framerAttemptsLoop fuel msgs.flatten = msgs := by
  induction msgs with
  | nil => intro fuel _ _; simp [framerAttemptsLoop_nil]
  | cons m rest ih =>
    intro fuel hwf hfuel
    obtain ⟨h8, hb0, hlen⟩ := hwf m (by simp)
    have hflat : (m :: rest).flatten = m ++ rest.flatten := by simp
    have hlens : (m :: rest).flatten.length = m.length + rest.flatten.length := by simp
    obtain ⟨f, rfl⟩ : ∃ f, fuel = f + 1 := ⟨fuel - 1, by omega⟩
    rw [hflat]
    have hbuf8 : ¬((m ++ rest.flatten).length < 8) := by simp; omega
    have hg0 : (m ++ rest.flatten).getD 0 0 = m.getD 0 0 :=
      List.getD_append _ _ _ _ (by omega)
    have hg2 : (m ++ rest.flatten).getD 2 0 = m.getD 2 0 :=
      List.getD_append _ _ _ _ (by omega)
    have hg3 : (m ++ rest.flatten).getD 3 0 = m.getD 3 0 :=
      List.getD_append _ _ _ _ (by omega)
    have hdec : headerDecode ((m ++ rest.flatten).take 8) =
        some { packetType := TdsPacketType.ofByte (m.getD 0 0),
               status := (m ++ rest.flatten).getD 1 0,
               length := m.length,
               spid := be16 ((m ++ rest.flatten).getD 4 0) ((m ++ rest.flatten).getD 5 0),
               packetId := (m ++ rest.flatten).getD 6 0,
               window := (m ++ rest.flatten).getD 7 0 } := by
      rw [headerDecode_take _ (by simp; omega), hg0, hg2, hg3, hlen, if_neg (by omega)]
    have htype : TdsPacketType.ofByte (m.getD 0 0) = .sqlBatch ∨
        TdsPacketType.ofByte (m.getD 0 0) = .rpcRequest := by
      rcases hb0 with h | h <;> rw [h] <;> simp [TdsPacketType.ofByte]
    have hnot : ¬(m.getD 0 0 ≠ 1 ∧ m.getD 0 0 ≠ 3) := by
      rcases hb0 with h | h <;> omega
    simp only [framerAttemptsLoop]
    rw [if_neg hbuf8, hg0, if_neg hnot, hdec]
    dsimp only
    rw [if_neg (not_not_intro htype)]
    rw [if_neg (show ¬((m ++ rest.flatten).length < m.length) by simp)]
    rw [List.take_left' rfl, List.drop_left' rfl]
    congr 1
    exact ih f (fun x hx => hwf x (by simp [hx])) (by omega)

/-- The framer's outputs are a projection of its decode attempts: the
decoded strings are the successful `decode_tds_packet` results of the
attempts, and the raw packets are the attempts whose decode succeeded. -/
theorem framerLoop_eq_attempts (fuel : Nat) :
    ∀ buf, framerLoop fuel buf =
      ((framerAttemptsLoop fuel buf).filterMap decodeTdsPacket,
       (framerAttemptsLoop fuel buf).filter fun p => (decodeTdsPacket p).isSome) := by
  induction fuel with
  | zero => intro buf; simp [framerLoop, framerAttemptsLoop]
  | succ f ih =>
    intro buf
    simp only [framerLoop, framerAttemptsLoop]
    split
    · simp
    · split
      · exact ih _
      · split
        · exact ih _
        · split
          · split
            · simp
            · exact ih _
          · split
            · simp
            · rw [ih]
              simp only [List.filterMap_cons, List.filter_cons]
              cases hdp : decodeTdsPacket (buf.take _) <;> simp [hdp]


instance (m : List Nat) : Decidable (WellFormedTds m) := by
  unfold WellFormedTds; infer_instance

/-- C1: `decode_tds_packets_with_raw` performs its decode attempts
exactly as the framing loop dictates — its decoded/raw outputs are the
filter of the attempt sequence through `decode_tds_packet` — and for
every buffer that is the exact concatenation of n well-formed
SQLBatch/RPC messages the attempt sequence is exactly those n messages in
order, each attempt against exactly the bytes of that message. -/
theorem c1_length_framing :
    (∀ data, decodeTdsPacketsWithRaw data =
       ((framingAttempts data).filterMap decodeTdsPacket,
        (framingAttempts data).filter fun p => (decodeTdsPacket p).isSome)) ∧
    (∀ msgs : List (List Nat), (∀ m ∈ msgs, WellFormedTds m) →
       framingAttempts msgs.flatten = msgs) := by
  constructor
  · intro data
    exact framerLoop_eq_attempts data.length data
  · intro msgs h
    exact framerAttempts_concat msgs msgs.flatten.length h (le_refl _)

/-- C1 witness: the S3 RPC message followed by a minimal 8-byte SQLBatch
message is framed into exactly those two decode attempts. -/
theorem c1_witness :
    (∀ m ∈ [s3Bytes, ([1,0,0,8,0,0,0,0] : List Nat)], WellFormedTds m) ∧
    framingAttempts ([s3Bytes, [1,0,0,8,0,0,0,0]] : List (List Nat)).flatten =
      [s3Bytes, [1,0,0,8,0,0,0,0]] :=
  ⟨by decide, c1_length_framing.2 _ (by decide)⟩



/-! ## C3: reassembly order, gap stop, and None cases -/

/-- Membership in a stable insertion. -/
theorem mem_insertSeg (t x : TcpSegment) (l : List TcpSegment) :
    x ∈ insertSeg t l ↔ x = t ∨ x ∈ l := by
  induction l with
  | nil => simp [insertSeg]
  | cons u us ih =>
    simp only [insertSeg]
    split
    · simp only [List.mem_cons, ih]
      tauto
    · simp [List.mem_cons]

/-- Stable insertion preserves ascending seq order. -/
theorem pairwise_insertSeg (t : TcpSegment) (l : List TcpSegment)
    (h : l.Pairwise fun a b => a.seq ≤ b.seq) :
    (insertSeg t l).Pairwise fun a b => a.seq ≤ b.seq := by
  induction l with
  | nil => simp [insertSeg]
  | cons u us ih =>
    rw [List.pairwise_cons] at h
    obtain ⟨hu, hus⟩ := h
    simp only [insertSeg]
    split
    · rename_i hlt
      rw [List.pairwise_cons]
      refine ⟨?_, ih hus⟩
      intro x hx
      rcases (mem_insertSeg t x us).mp hx with rfl | hxm
      · omega
      · exact hu x hxm
    · rename_i hge
      rw [List.pairwise_cons]
      constructor
      · intro x hx
        rcases List.mem_cons.mp hx with rfl | hxm
        · omega
        · have := hu x hxm
          omega
      · rw [List.pairwise_cons]
        exact ⟨hu, hus⟩

/-- The stable sort produces an ascending seq order. -/
theorem sortSegs_pairwise (l : List TcpSegment) :
    (sortSegs l).Pairwise fun a b => a.seq ≤ b.seq := by
  induction l with
  | nil => simp [sortSegs]
  | cons x xs ih => exact pairwise_insertSeg x _ ih

/-- C3: `reassemble_segments` returns `None` on the empty segment list;
the loop stops at the first segment whose seq strictly exceeds the
expected next sequence number, returning exactly the bytes assembled so
far (whatever follows is ignored); and on a non-empty list the function
processes the segments in ascending seq order (the sorted list is
pairwise ascending) starting from the first sorted seq, returning `None`
exactly when nothing was assembled. -/
theorem c3_reassembly_gap_stop :
    (reassembleSegments [] = none) ∧
    (∀ (e : Nat) (acc : List Nat) (s : TcpSegment) (rest : List TcpSegment),
      e < s.seq → reassembleLoop e acc (s :: rest) = acc) ∧
    (∀ (segs : List TcpSegment) (s0 : TcpSegment) (rest : List TcpSegment),
      sortSegs segs = s0 :: rest →
      ((s0 :: rest).Pairwise fun a b => a.seq ≤ b.seq) ∧
      reassembleSegments segs =
        (if reassembleLoop s0.seq [] (s0 :: rest) = [] then none
         else some (reassembleLoop s0.seq [] (s0 :: rest)))) := by
  refine ⟨by simp [reassembleSegments, sortSegs], ?_, ?_⟩
  · intro e acc s rest hgap
    simp only [reassembleLoop]
    rw [if_neg (by omega), if_neg (by omega)]
  · intro segs s0 rest hsort
    constructor
    · rw [← hsort]; exact sortSegs_pairwise segs
    · simp only [reassembleSegments, hsort]
      rcases h : reassembleLoop s0.seq [] (s0 :: rest) with _ | _
      · simp [List.isEmpty_iff, h]
      · simp [List.isEmpty_iff, h]

/-- C3 witness: a gap (expected 5, next seq 7) returns the accumulator
untouched, and a two-segment list with a gap after the first segment
reassembles to exactly the first segment's bytes. -/
theorem c3_witness :
    reassembleLoop 5 [9] [⟨7, [1]⟩] = [9] ∧
    reassembleSegments [⟨5, [1, 2]⟩, ⟨9, [3]⟩] =
      (if reassembleLoop 5 [] [⟨5, [1, 2]⟩, ⟨9, [3]⟩] = [] then none
       else some (reassembleLoop 5 [] [⟨5, [1, 2]⟩, ⟨9, [3]⟩])) := by
  constructor
  · exact c3_reassembly_gap_stop.2.1 5 [9] ⟨7, [1]⟩ [] (by decide)
  · exact (c3_reassembly_gap_stop.2.2 [⟨5, [1, 2]⟩, ⟨9, [3]⟩] ⟨5, [1, 2]⟩ [⟨9, [3]⟩]
      (by decide)).2



/-! ## C10: `parse_packet` never panics; C6: the processing gate -/

/-- C10: `parse_packet` is total and panic-free. For every input byte
list — truncated headers, IHL or DataOffset nibbles smaller than the
minimum, payload offsets at or past the end — every byte access and the
final payload slice is guarded by a bounds check, so the checked
embedding never reaches an out-of-bounds access (`Except.error`):
it always returns `.ok` (either a clean rejection `none` or a parsed
packet). -/
theorem c10_parse_packet_no_panic (data : List Nat) :
    (parsePacketChecked data).isOk = true := by
  by_cases h14 : data.length < 14
  · simp [parsePacketChecked, h14, Except.isOk, Except.toBool]
  · by_cases h34 : data.length < 14 + 20
    · simp [parsePacketChecked, h14, h34, Except.isOk, Except.toBool]
    · have hb : ∀ (i : Nat) (hi : i < data.length),
          data[i]? = some (data.get ⟨i, hi⟩) := by
        intro i hi; simp [List.get_eq_getElem]
      simp only [parsePacketChecked, if_neg h14, if_neg h34, readByte,
        hb 14 (by omega), hb 23 (by omega), hb 26 (by omega), hb 27 (by omega),
        hb 28 (by omega), hb 29 (by omega), hb 30 (by omega), hb 31 (by omega),
        hb 32 (by omega), hb 33 (by omega)]
      simp only [bind, Except.bind, pure, Except.pure]
      split
      · simp [Except.isOk, Except.toBool]
      · -- version = 4; protocol check
        split
        · simp [Except.isOk, Except.toBool]
        · -- protocol = 6; tcp length guard
          set tcpStart := 14 + (data.get ⟨14, by omega⟩) % 16 * 4 with hts
          by_cases htcp : data.length < tcpStart + 20
          · simp [htcp, Except.isOk, Except.toBool]
          · simp only [if_neg htcp, readByte,
              hb tcpStart (by omega), hb (tcpStart+1) (by omega), hb (tcpStart+2) (by omega),
              hb (tcpStart+3) (by omega), hb (tcpStart+4) (by omega), hb (tcpStart+5) (by omega),
              hb (tcpStart+6) (by omega), hb (tcpStart+7) (by omega), hb (tcpStart+12) (by omega)]
            split
            · simp [Except.isOk, Except.toBool]
            · rename_i hpay
              simp only [sliceFrom]
              split
              · rename_i err heq
                rw [if_pos (by omega)] at heq
                simp at heq
              · split <;> simp [Except.isOk, Except.toBool]


/-- C6 (amended): the capture path processes a frame only if `parse_packet`
accepts it, and `parse_packet` accepts only frames whose TCP source or
destination port is 1433 — not the spec's set 1433/1434/1436 — or whose
payload passes `is_tds_packet`'s first-byte TDS type inspection, which the
dissector itself performs. -/
theorem c6_processed_only_if (data : List Nat) (r : ParsedPacket)
    (h : parsePacket data = some r) :
    srcPortOf data = 1433 ∨ dstPortOf data = 1433 ∨ isTdsPacket (payloadOf data) = true := by
  unfold parsePacket at h
  cases hc : parsePacketChecked data with
  | error e => rw [hc] at h; simp at h
  | ok o =>
    rw [hc] at h
    dsimp only at h
    rw [h] at hc
    clear h
    by_cases h14 : data.length < 14
    · rw [parsePacketChecked, if_pos h14] at hc; simp at hc
    · by_cases h34 : data.length < 14 + 20
      · rw [parsePacketChecked, if_neg h14, if_pos h34] at hc; simp at hc
      · have hb : ∀ (i : Nat) (hi : i < data.length),
            data[i]? = some (data.get ⟨i, hi⟩) := by
          intro i hi; simp [List.get_eq_getElem]
        simp only [parsePacketChecked, if_neg h14, if_neg h34, readByte,
          hb 14 (by omega), hb 23 (by omega), hb 26 (by omega), hb 27 (by omega),
          hb 28 (by omega), hb 29 (by omega), hb 30 (by omega), hb 31 (by omega),
          hb 32 (by omega), hb 33 (by omega), bind, Except.bind, pure, Except.pure] at hc
        split at hc
        · simp at hc
        · split at hc
          · simp at hc
          · set tcpStart := 14 + (data.get ⟨14, by omega⟩) % 16 * 4 with hts
            by_cases htcp : data.length < tcpStart + 20
            · rw [if_pos htcp] at hc; simp at hc
            · simp only [if_neg htcp, readByte,
                hb tcpStart (by omega), hb (tcpStart+1) (by omega), hb (tcpStart+2) (by omega),
                hb (tcpStart+3) (by omega), hb (tcpStart+4) (by omega), hb (tcpStart+5) (by omega),
                hb (tcpStart+6) (by omega), hb (tcpStart+7) (by omega),
                hb (tcpStart+12) (by omega), bind, Except.bind, pure, Except.pure] at hc
              split at hc
              · simp at hc
              · rename_i hpay
                simp only [sliceFrom] at hc
                split at hc
                · simp at hc
                · rename_i hcon
                  split at hcon
                  · rename_i hok
                    have hv := Except.ok.inj hcon
                    subst hv
                    split at hc
                    · simp at hc
                    · rename_i hgate
                      rw [not_not] at hgate
                      have hgd : ∀ (i : Nat) (hi : i < data.length),
                          data.getD i 0 = data.get ⟨i, hi⟩ := by
                        intro i hi
                        simp [List.getD_eq_getElem?_getD, List.getElem?_eq_getElem hi,
                          List.get_eq_getElem]
                      have hTS : tcpStartOf data = tcpStart := by
                        simp only [tcpStartOf, ipHeaderLenOf, hgd 14 (by omega)]
                      simp only [srcPortOf, dstPortOf, payloadOf, hTS,
                        hgd tcpStart (by omega), hgd (tcpStart+1) (by omega),
                        hgd (tcpStart+2) (by omega), hgd (tcpStart+3) (by omega),
                        hgd (tcpStart+12) (by omega)]
                      tauto
                  · rename_i hbad
                    omega


/-- A 55-byte Ethernet/IPv4/TCP frame with ports 5555 → 6666 (neither in
the spec's SQL Server port set) and the single payload byte 0x04, a TDS
packet-type byte. -/
def noisePortFrame : List Nat := [0, 0, 0, 0, 0, 0, 0, 0, 0, 0, 0, 0, 0, 0, 69, 0, 0, 0, 0, 0, 0, 0, 0, 6, 0, 0, 10, 0, 0, 1, 10, 0, 0, 2, 21, 179, 26, 10, 0, 0, 0, 0, 0, 0, 0, 0, 80, 0, 0, 0, 0, 0, 0, 0, 4]

/-- C6 counterexample: the claim "frames matching neither port of
the set 1433/1434/1436 are silently skipped, and the dissector performs
no TDS inspection of the payload" is false on the code:
`parse_packet` accepts this frame although its ports are 5555 and 6666,
precisely because the dissector inspects the payload's first byte
(`is_tds_packet`). -/
theorem c6_counterexample :
    (parsePacket noisePortFrame).isSome = true ∧
    srcPortOf noisePortFrame = 5555 ∧ dstPortOf noisePortFrame = 6666 ∧
    isTdsPacket (payloadOf noisePortFrame) = true := by
  decide

/-- C6 witness: the accept gate evaluated on the concrete frame. -/
theorem c6_witness :
    srcPortOf noisePortFrame = 1433 ∨ dstPortOf noisePortFrame = 1433 ∨
      isTdsPacket (payloadOf noisePortFrame) = true :=
  c6_processed_only_if noisePortFrame
    (⟨167772161, 5555, 167772162, 6666⟩, 0, [4], true) (by decide)



/-! ## C9: duplicate segment insertion -/

/-- One unfolding step of the reassembly loop. -/
theorem loop_cons (e : Nat) (acc : List Nat) (s : TcpSegment) (rest : List TcpSegment) :
    reassembleLoop e acc (s :: rest) =
      if s.seq < e then
        (if e - s.seq < s.data.length % M32 then
          reassembleLoop ((s.seq + s.data.length % M32) % M32)
            (acc ++ s.data.drop (e - s.seq)) rest
        else reassembleLoop e acc rest)
      else if s.seq = e then
        reassembleLoop ((s.seq + s.data.length % M32) % M32) (acc ++ s.data) rest
      else acc := rfl

/-- When every remaining segment is past the expected counter, the loop
stops immediately with the accumulator. -/
theorem loop_break_all (e : Nat) (acc : List Nat) (B : List TcpSegment)
    (h : ∀ u ∈ B, e < u.seq) : reassembleLoop e acc B = acc := by
  cases B with
  | nil => rfl
  | cons u B2 =>
    have hu := h u (by simp)
    rw [loop_cons, if_neg (by omega), if_neg (by omega)]

/-- The u32 modulus is positive. -/
theorem hM32 : 0 < M32 := by norm_num [M32]

/-- The stable sort permutes: same members. -/
theorem mem_sortSegs (x : TcpSegment) (l : List TcpSegment) :
    x ∈ sortSegs l ↔ x ∈ l := by
  induction l with
  | nil => simp [sortSegs]
  | cons a l ih => simp [sortSegs, mem_insertSeg, ih]

/-- Core duplicate-absorption step: when the duplicate of `s` sits right
behind `s` in the processed list and everything after it has seq at least
`s.seq`, processing the duplicate changes nothing — provided `s.data`'s
length is not a positive multiple of 2^32 (the `as u32` cast would then
read it as 0 and append the data twice). -/
theorem loop_dup (s : TcpSegment) (hseq : s.seq < M32)
    (hdl : s.data = [] ∨ s.data.length % M32 ≠ 0)
    (e : Nat) (acc : List Nat) (B : List TcpSegment) (he : e < M32)
    (hB : ∀ u ∈ B, s.seq ≤ u.seq) :
    reassembleLoop e acc (s :: s :: B) = reassembleLoop e acc (s :: B) := by
  have hlt : s.data.length % M32 < M32 := Nat.mod_lt _ hM32
  have hwrapcase : ∀ (acc2 : List Nat), ¬(s.seq + s.data.length % M32 < M32) →
      reassembleLoop ((s.seq + s.data.length % M32) % M32) acc2 (s :: B) =
        reassembleLoop ((s.seq + s.data.length % M32) % M32) acc2 B := by
    intro acc2 h3
    have he1 : (s.seq + s.data.length % M32) % M32 =
        s.seq + s.data.length % M32 - M32 := by
      rw [Nat.mod_eq_sub_mod (by omega), Nat.mod_eq_of_lt (by omega)]
    have hall1 : ∀ u ∈ (s :: B), s.seq + s.data.length % M32 - M32 < u.seq := by
      intro u hu
      rcases List.mem_cons.mp hu with rfl | hu2
      · omega
      · have := hB u hu2; omega
    have hall2 : ∀ u ∈ B, s.seq + s.data.length % M32 - M32 < u.seq := by
      intro u hu; have := hB u hu; omega
    rw [he1, loop_break_all _ _ _ hall1, loop_break_all _ _ _ hall2]
  have hnowrap : ∀ (acc2 : List Nat), s.data.length % M32 ≠ 0 →
      s.seq + s.data.length % M32 < M32 →
      reassembleLoop ((s.seq + s.data.length % M32) % M32) acc2 (s :: B) =
        reassembleLoop ((s.seq + s.data.length % M32) % M32) acc2 B := by
    intro acc2 hne h3
    rw [Nat.mod_eq_of_lt h3]
    rw [loop_cons, if_pos (by omega), if_neg (by omega)]
  by_cases h1 : s.seq < e
  · by_cases h2 : e - s.seq < s.data.length % M32
    · have hne : s.data.length % M32 ≠ 0 := by omega
      rw [loop_cons, if_pos h1, if_pos h2]
      conv_rhs => rw [loop_cons, if_pos h1, if_pos h2]
      by_cases h3 : s.seq + s.data.length % M32 < M32
      · exact hnowrap _ hne h3
      · exact hwrapcase _ h3
    · rw [loop_cons, if_pos h1, if_neg h2]
  · by_cases h0 : s.seq = e
    · subst h0
      rw [loop_cons, if_neg (by omega), if_pos rfl]
      conv_rhs => rw [loop_cons, if_neg (by omega), if_pos rfl]
      rcases hdl with hnil | hmod
      · have hz : s.data.length % M32 = 0 := by rw [hnil]; rfl
        rw [hz, Nat.add_zero, Nat.mod_eq_of_lt hseq, hnil, List.append_nil]
        rw [loop_cons, if_neg (by omega), if_pos rfl]
        rw [hz, Nat.add_zero, Nat.mod_eq_of_lt hseq, hnil, List.append_nil]
      · by_cases h3 : s.seq + s.data.length % M32 < M32
        · exact hnowrap _ hmod h3
        · exact hwrapcase _ h3
    · rw [loop_cons, if_neg h1, if_neg h0]
      conv_rhs => rw [loop_cons, if_neg h1, if_neg h0]

/-- Stable insertion into a list with a distinguished `s`-position keeps
the duplicate of `s` adjacent: inserting `x` into `A ++ s :: B` and into
`A ++ s :: s :: B` agree outside the duplicate. -/
theorem insert_dup_decomp (s x : TcpSegment) (A B : List TcpSegment)
    (hB : ∀ u ∈ B, s.seq ≤ u.seq) :
    ∃ A2 B2, insertSeg x (A ++ s :: B) = A2 ++ s :: B2 ∧
      insertSeg x (A ++ s :: s :: B) = A2 ++ s :: s :: B2 ∧
      (∀ u ∈ B2, s.seq ≤ u.seq) := by
  induction A with
  | nil =>
    simp only [List.nil_append, insertSeg]
    by_cases h : s.seq < x.seq
    · refine ⟨[], insertSeg x B, ?_, ?_, ?_⟩
      · rw [if_pos h]; rfl
      · rw [if_pos h, if_pos h]; rfl
      · intro u hu
        rcases (mem_insertSeg x u B).mp hu with rfl | hu2
        · omega
        · exact hB u hu2
    · refine ⟨[x], B, ?_, ?_, hB⟩
      · rw [if_neg h]; rfl
      · rw [if_neg h]; rfl
  | cons a A ih =>
    obtain ⟨A2, B2, h1, h2, h3⟩ := ih
    simp only [List.cons_append, insertSeg, List.append_eq]
    by_cases h : a.seq < x.seq
    · refine ⟨a :: A2, B2, ?_, ?_, h3⟩
      · rw [if_pos h, h1]; rfl
      · rw [if_pos h, h2]; rfl
    · refine ⟨x :: a :: A, B, ?_, ?_, hB⟩
      · rw [if_neg h]; rfl
      · rw [if_neg h]; rfl

/-- The stable sorts of `L ++ [s]` and `L ++ [s, s]` differ exactly by
one extra copy of `s` placed immediately after the existing one, with
only larger-or-equal seqs after it. -/
theorem sort_dup_decomp (s : TcpSegment) (L : List TcpSegment) :
    ∃ A B, sortSegs (L ++ [s]) = A ++ s :: B ∧
      sortSegs (L ++ [s, s]) = A ++ s :: s :: B ∧
      (∀ u ∈ B, s.seq ≤ u.seq) := by
  induction L with
  | nil =>
    refine ⟨[], [], rfl, ?_, by simp⟩
    show sortSegs [s, s] = [s, s]
    simp [sortSegs, insertSeg]
  | cons x L ih =>
    obtain ⟨A, B, h1, h2, h3⟩ := ih
    obtain ⟨A2, B2, g1, g2, g3⟩ := insert_dup_decomp s x A B h3
    refine ⟨A2, B2, ?_, ?_, g3⟩
    · show insertSeg x (sortSegs (L ++ [s])) = _
      rw [h1, g1]
    · show insertSeg x (sortSegs (L ++ [s, s])) = _
      rw [h2, g2]

/-- Walking the common prefix `A`: the two loops stay in lockstep until
the duplicate is reached, where `loop_dup` applies. -/
theorem loop_dup_walk (s : TcpSegment) (hseq : s.seq < M32)
    (hdl : s.data = [] ∨ s.data.length % M32 ≠ 0) :
    ∀ (A : List TcpSegment) (e : Nat) (acc : List Nat) (B : List TcpSegment),
      e < M32 → (∀ u ∈ B, s.seq ≤ u.seq) →
      reassembleLoop e acc (A ++ s :: s :: B) = reassembleLoop e acc (A ++ s :: B) := by
  intro A
  induction A with
  | nil =>
    intro e acc B he hB
    exact loop_dup s hseq hdl e acc B he hB
  | cons a A ih =>
    intro e acc B he hB
    simp only [List.cons_append]
    rw [loop_cons]
    conv_rhs => rw [loop_cons]
    have hmod : ∀ n : Nat, n % M32 < M32 := fun n => Nat.mod_lt _ hM32
    by_cases h1 : a.seq < e
    · rw [if_pos h1, if_pos h1]
      by_cases h2 : e - a.seq < a.data.length % M32
      · rw [if_pos h2, if_pos h2]
        exact ih _ _ _ (hmod _) hB
      · rw [if_neg h2, if_neg h2]
        exact ih _ _ _ he hB
    · rw [if_neg h1, if_neg h1]
      by_cases h0 : a.seq = e
      · rw [if_pos h0, if_pos h0]
        exact ih _ _ _ (hmod _) hB
      · rw [if_neg h0, if_neg h0]

/-- Duplicate insertion is absorbed by `reassemble_segments` whenever the
segment's seq is a u32 value and its data length is not a positive
multiple of 2^32. -/
theorem reassemble_dup (s : TcpSegment) (L : List TcpSegment)
    (hseq : s.seq < M32) (hL : ∀ t ∈ L, t.seq < M32)
    (hdl : s.data = [] ∨ s.data.length % M32 ≠ 0) :
    reassembleSegments (L ++ [s, s]) = reassembleSegments (L ++ [s]) := by
  obtain ⟨A, B, h1, h2, hB⟩ := sort_dup_decomp s L
  rw [reassembleSegments, reassembleSegments, h1, h2]
  cases A with
  | nil =>
    simp only [List.nil_append]
    rw [loop_dup s hseq hdl s.seq [] B hseq hB]
  | cons a A2 =>
    simp only [List.cons_append]
    have ha : a.seq < M32 := by
      have : a ∈ sortSegs (L ++ [s]) := by rw [h1]; simp
      have hmem := (mem_sortSegs a (L ++ [s])).mp this
      rcases List.mem_append.mp hmem with hl | hr
      · exact hL a hl
      · simp at hr; rw [hr]; exact hseq
    have hw := loop_dup_walk s hseq hdl (a :: A2) a.seq [] B ha hB
    simp only [List.cons_append] at hw
    rw [hw]

/-- C9 (amended): reassembly is idempotent under duplicate insertion for
every flow state whose stored seqs are u32 values and every segment whose
data length is not a positive multiple of 2^32: adding the same segment
twice yields the same bytes from `get_client_data` (resp.
`get_server_data`) as adding it once. (The exception is forced by the
`as u32` cast on the data length; see the counterexample.) -/
theorem c9_idempotent_amended (st : TcpStream) (fid : FlowId)
    (srcIp srcPort seq : Nat) (data : List Nat)
    (hseq : seq < M32)
    (hc : ∀ t ∈ st.clientSegments, t.seq < M32)
    (hs : ∀ t ∈ st.serverSegments, t.seq < M32)
    (hdl : data = [] ∨ data.length % M32 ≠ 0) :
    getClientData (addPacket fid srcIp srcPort seq data
        (addPacket fid srcIp srcPort seq data st)) =
      getClientData (addPacket fid srcIp srcPort seq data st) ∧
    getServerData (addPacket fid srcIp srcPort seq data
        (addPacket fid srcIp srcPort seq data st)) =
      getServerData (addPacket fid srcIp srcPort seq data st) := by
  by_cases hcl : fid.isClientToServer srcIp srcPort = true
  · constructor
    · simp only [addPacket, hcl, if_true, getClientData]
      rw [List.append_assoc]
      exact reassemble_dup ⟨seq, data⟩ st.clientSegments hseq hc hdl
    · simp only [addPacket, hcl, if_true, getServerData]
  · have hcl2 : fid.isClientToServer srcIp srcPort = false := by
      simpa using hcl
    constructor
    · simp only [addPacket, hcl2, Bool.false_eq_true, if_false, getClientData]
    · simp only [addPacket, hcl2, Bool.false_eq_true, if_false, getServerData]
      rw [List.append_assoc]
      exact reassemble_dup ⟨seq, data⟩ st.serverSegments hseq hs hdl

/-- C9 witness: an ordinary two-byte segment added twice to a fresh flow
reassembles identically to adding it once, in both directions. -/
theorem c9_witness :
    getClientData (addPacket ⟨1, 1, 2, 2⟩ 1 1 5 [7, 8]
        (addPacket ⟨1, 1, 2, 2⟩ 1 1 5 [7, 8] TcpStream.empty)) =
      getClientData (addPacket ⟨1, 1, 2, 2⟩ 1 1 5 [7, 8] TcpStream.empty) ∧
    getServerData (addPacket ⟨1, 1, 2, 2⟩ 1 1 5 [7, 8]
        (addPacket ⟨1, 1, 2, 2⟩ 1 1 5 [7, 8] TcpStream.empty)) =
      getServerData (addPacket ⟨1, 1, 2, 2⟩ 1 1 5 [7, 8] TcpStream.empty) :=
  c9_idempotent_amended TcpStream.empty ⟨1, 1, 2, 2⟩ 1 1 5 [7, 8]
    (by norm_num [M32]) (by intro t ht; simp [TcpStream.empty] at ht)
    (by intro t ht; simp [TcpStream.empty] at ht)
    (Or.inr (by norm_num [M32]))

/-- For any segment data whose length is a positive multiple of 2^32
(read as 0 by the `as u32` cast), inserting it twice at seq 0 appends the
data twice while inserting it once yields it once. -/
theorem dup_breaks (d : List Nat) (hz : d.length % M32 = 0) (hne : d ≠ []) :
    getClientData (addPacket ⟨1, 1, 2, 2⟩ 1 1 0 d
        (addPacket ⟨1, 1, 2, 2⟩ 1 1 0 d TcpStream.empty)) = some (d ++ d) ∧
    getClientData (addPacket ⟨1, 1, 2, 2⟩ 1 1 0 d TcpStream.empty) = some d := by
  have hcl : FlowId.isClientToServer ⟨1, 1, 2, 2⟩ 1 1 = true := by decide
  have hsort2 : sortSegs [(⟨0, d⟩ : TcpSegment), ⟨0, d⟩] = [⟨0, d⟩, ⟨0, d⟩] := by
    simp [sortSegs, insertSeg]
  have hloop1 : reassembleLoop 0 [] [(⟨0, d⟩ : TcpSegment)] = d := by
    rw [loop_cons, if_neg (Nat.not_lt_zero _), if_pos rfl, hz]
    simp only [Nat.add_zero, Nat.zero_mod, List.nil_append]
    rfl
  have hloop2 : reassembleLoop 0 [] [(⟨0, d⟩ : TcpSegment), ⟨0, d⟩] = d ++ d := by
    rw [loop_cons, if_neg (Nat.not_lt_zero _), if_pos rfl, hz]
    simp only [Nat.add_zero, Nat.zero_mod, List.nil_append]
    rw [loop_cons, if_neg (Nat.not_lt_zero _), if_pos rfl, hz]
    simp only [Nat.add_zero, Nat.zero_mod]
    rfl
  have hie1 : d.isEmpty = false := by
    cases d with
    | nil => exact absurd rfl hne
    | cons a l => rfl
  have hie2 : (d ++ d).isEmpty = false := by
    cases d with
    | nil => exact absurd rfl hne
    | cons a l => rfl
  simp only [addPacket, hcl, if_true, TcpStream.empty, getClientData,
    List.nil_append, List.singleton_append]
  constructor
  · rw [reassembleSegments, hsort2]
    dsimp only
    rw [hloop2, hie2]
    rfl
  · rw [reassembleSegments]
    show (if (reassembleLoop 0 [] [(⟨0, d⟩ : TcpSegment)]).isEmpty = true then none
      else some (reassembleLoop 0 [] [(⟨0, d⟩ : TcpSegment)])) = some d
    rw [hloop1, hie1]
    rfl

/-- C9 counterexample: idempotence as claimed — for *every* flow state
and *every* segment — is false on the code. A segment of exactly 2^32
bytes has `data.len() as u32 == 0`, so after the first copy is appended
the expected counter returns to the segment's own seq and the second,
identical copy is appended again: adding it twice yields twice the
bytes. -/
theorem c9_counterexample :
    getClientData (addPacket ⟨1, 1, 2, 2⟩ 1 1 0 (List.replicate M32 55)
        (addPacket ⟨1, 1, 2, 2⟩ 1 1 0 (List.replicate M32 55) TcpStream.empty)) ≠
    getClientData (addPacket ⟨1, 1, 2, 2⟩ 1 1 0 (List.replicate M32 55) TcpStream.empty) := by
  have hz : (List.replicate M32 55).length % M32 = 0 := by
    rw [List.length_replicate]
    exact Nat.mod_self _
  have hne : List.replicate M32 55 ≠ [] := by
    intro hcon
    have := congrArg List.length hcon
    rw [List.length_replicate] at this
    norm_num [M32] at this
  obtain ⟨h2, h1⟩ := dup_breaks (List.replicate M32 55) hz hne
  rw [h1, h2]
  intro hcon
  have := congrArg List.length (Option.some.inj hcon)
  rw [List.length_append, List.length_replicate] at this
  norm_num [M32] at this

end TdsSniffer
